import Mathlib

/-!
Verification of the format.rs concurrent rustfmt dispatch engine

A shallow embedding of `src/bootstrap/format.rs`: the blocking/non-blocking
completion closure returned by `rustfmt`, the version-stamp cache
(`get_rustfmt_version`, `verify_rustfmt_version`, `update_rustfmt_version`),
the modified-file fast path (`get_modified_rs_files`,
`get_rust_lang_rust_remote`), the untracked-path exclude overrides, the
control flow of `format`, and the dispatcher loop that batches paths and
manages the bounded pool of spawned child processes.

External collaborators (the `ignore` crate's override matching, the
`program_out_of_date` helper from `util.rs`, git and the rustfmt binary) are
modelled at their interface boundary; each such model says so in its doc
comment.
-/

set_option autoImplicit false

namespace FormatRs

/-! ## The completion closure returned by `rustfmt` (format.rs lines 11-45)

`rustfmt` spawns one child process over a batch of paths and returns a
closure `move |block: bool| -> bool`.  We model the child at the instant the
closure is called: whether it has already exited (`finished`, what
`try_wait` observes) and its (eventual) exit code.  `exitCode = 0` is
`status.success()`. -/

/-- State of a spawned rustfmt child at the moment its closure is invoked:
`finished` is what `try_wait` would observe; `exitCode` is the exit status
that `wait` returns (0 = success). -/
structure SpawnedChild where
  finished : Bool
  exitCode : Nat
  deriving Repr, DecidableEq

/-- Outcome of one invocation of the closure returned by `rustfmt`:
`pending` models `return false` from the `try_wait` arm; `succeeded` models
`return true`; `fatal cmd code` models the `eprintln!` of the spawned
command line `cmd` followed by `crate::detail_exit(code)`, which terminates
the entire program. -/
inductive AwaitOutcome where
  | pending
  | succeeded
  | fatal (printedCmdLine : String) (programExitCode : Nat)
  deriving Repr, DecidableEq

/-- The argument list built by `rustfmt` (format.rs lines 12-22):
`--config-path <src> --edition 2021 --unstable-features --skip-children
[--check] <paths>...`. -/
def rustfmtArgs (srcCanonical : String) (check : Bool) (paths : List String) :
    List String :=
  ["--config-path", srcCanonical, "--edition", "2021", "--unstable-features",
    "--skip-children"] ++ (if check then ["--check"] else []) ++ paths

/-- The body of the closure returned by `rustfmt` (format.rs lines 26-44).
`cmdDebug` is the captured rendering of the spawned command.  If `block` is
false and the child has not exited, `try_wait` yields no status and the
closure returns `false` (`pending`).  Otherwise the closure reaches
`cmd.wait()`; a non-success status prints the command line and calls
`detail_exit(1)`; success returns `true`. -/
def awaitChild (cmdDebug : String) (block : Bool) (c : SpawnedChild) :
    AwaitOutcome :=
  if !block && !c.finished then .pending
  else if c.exitCode = 0 then .succeeded
  else .fatal cmdDebug 1

/-! ## Version stamp cache (format.rs lines 47-75) -/

/-- Inputs to `get_rustfmt_version`: whether `build.initial_rustfmt()` is
`Some`, and the result of running `<rustfmt> --version` — `none` when
`cmd.output()` itself errors, otherwise `(status.success(), stdout)`. -/
structure VersionEnv where
  initialRustfmt : Bool
  versionOutput : Option (Bool × String)
  deriving Repr, DecidableEq

/-- The function `get_rustfmt_version` (format.rs lines 47-63), dropping the constant
stamp-file path component of the returned pair: `None` when rustfmt is
unavailable, the `--version` invocation fails to run, or it exits
non-success; otherwise the stdout string. -/
def get_rustfmt_version (env : VersionEnv) : Option String :=
  if !env.initialRustfmt then none
  else
    match env.versionOutput with
    | none => none
    | some (success, stdout) => if success then some stdout else none

/-- Modelled from the spec: `program_out_of_date` lives in `util.rs`, which
is not part of the sources; per the spec, the stamp is only trusted when the
freshly queried version string exactly matches the persisted one, and any
read failure is a cache miss.  `stampContents` is `none` when the stamp file
is missing or unreadable. -/
def program_out_of_date (stampContents : Option String) (key : String) : Bool :=
  match stampContents with
  | none => true
  | some s => decide (s ≠ key)

/-- The function `verify_rustfmt_version` (format.rs lines 66-69): false when
`get_rustfmt_version` fails, otherwise the stamp must be up to date. -/
def verify_rustfmt_version (env : VersionEnv) (stampContents : Option String) :
    Bool :=
  match get_rustfmt_version env with
  | none => false
  | some version => !program_out_of_date stampContents version

/-- The function `update_rustfmt_version` (format.rs lines 72-75): returns the contents
written to the stamp file, `none` when `get_rustfmt_version` fails and
nothing is written. -/
def update_rustfmt_version (env : VersionEnv) : Option String :=
  match get_rustfmt_version env with
  | none => none
  | some version => some version

/-! ## Untracked-path exclude overrides (format.rs lines 189-197) -/

/-- The override pattern added for an untracked path (format.rs line 196):
`format!("!/{}", untracked_path)`.  The `!` selects exclusion; the leading
`/` anchors the pattern at the repository root. -/
def untrackedIgnorePattern (p : String) : String := "!/" ++ p

/-- Modelled from the spec: matching of a literal (wildcard-free) override
pattern by the external `ignore` crate, per the source comment at format.rs
lines 191-195.  A pattern `!/X` excludes exactly the root-relative path `X`;
a pattern `!X` without the leading slash also matches any path ending in
`/X` (so `!foo.rs` would match `pkg/foo.rs`).  Returns whether `path` is
excluded by `pat`. -/
def overrideExcludes (pat : String) (path : String) : Bool :=
  match pat.data with
  | '!' :: '/' :: anchored => decide (path.data = anchored)
  | '!' :: name =>
      decide (path.data = name) || List.isSuffixOf ('/' :: name) path.data
  | _ => false

/-! ## Locating the rust-lang/rust remote (format.rs lines 111-130) -/

/-- Embedding of Rust's `str::split('.')` on the character list of a string:
splits at every occurrence of `c`, always yielding at least one (possibly
empty) piece. -/
def splitOnChar (c : Char) : List Char → List (List Char)
  | [] => [[]]
  | x :: xs =>
    match splitOnChar c xs with
    | [] => [[]]
    | piece :: rest =>
      if x = c then [] :: piece :: rest else (x :: piece) :: rest

/-- Whether `needle` is a prefix of `hay` (on characters). -/
def startsWithChars : List Char → List Char → Bool
  | [], _ => true
  | _ :: _, [] => false
  | a :: as, b :: bs => a == b && startsWithChars as bs

/-- Embedding of Rust's `str::contains(&str)`: `needle` occurs contiguously
in `hay`. -/
def containsChars (needle : List Char) : List Char → Bool
  | [] => needle.isEmpty
  | b :: bs => startsWithChars needle (b :: bs) || containsChars needle bs

/-- The function `get_rust_lang_rust_remote` (format.rs lines 111-130).  Here `gitConfigOk` is
whether `git config --local --get-regex remote\..*\.url` ran and exited
successfully; `stdout` is its output split into lines.  The source scans the
lines for the first one containing the substring `rust-lang` anywhere
(`remote.contains("rust-lang")`) and returns the second `.`-separated field
of that line (`split('.').nth(1)`); every failure is a recoverable `Err`.
-/
def get_rust_lang_rust_remote (gitConfigOk : Bool) (stdout : List String) :
    Except String String :=
  if !gitConfigOk then Except.error "failed to execute git config command"
  else
    match stdout.find? (fun line => containsChars "rust-lang".data line.data) with
    | none => Except.error "rust-lang/rust remote not found"
    | some line =>
      match (splitOnChar '.' line.data).get? 1 with
      | none => Except.error "remote name not found"
      | some name => Except.ok (String.mk name)

/-- The URL field of a `git config --get-regex` output line
`remote.<name>.url <url>`: the part after the first space. -/
def urlField (line : String) : String :=
  String.mk ((splitOnChar ' ' line.data).getD 1 [])

/-- The remote-name field of a `git config --get-regex` output line
`remote.<name>.url <url>`: the second `.`-separated field. -/
def remoteNameField (line : String) : String :=
  String.mk ((splitOnChar '.' line.data).getD 1 [])

/-- Follows the spec's words, for comparison with the source function (not
translated from the source): the name of the first configured remote whose
*URL's* host/organization matches the canonical rust-lang upstream identity,
i.e. the `github.com/rust-lang` organization; `none` when no remote
qualifies. -/
def specFirstUpstreamRemote (stdout : List String) : Option String :=
  (stdout.find?
      (fun line => containsChars "github.com/rust-lang".data (urlField line).data)).map
    remoteNameField

/-! ## The modified-files fast path (format.rs lines 81-101) -/

/-- The final path component (after the last `/`) of a path, as characters:
Rust's `Path::file_name` for plain relative paths. -/
def fileNameChars (path : List Char) : List Char :=
  ((splitOnChar '/' path).getLast?.getD [])

/-- Rust's `Path::extension` on a file name: `none` when the name contains
no `.` or when its only `.` is the leading character (hidden files such as
`.gitignore` have no extension); otherwise the part after the last `.`. -/
def rustExtension (path : List Char) : Option (List Char) :=
  match splitOnChar '.' (fileNameChars path) with
  | [] => none
  | [_] => none
  | [[], _] => none
  | pieces => pieces.getLast?

/-- Rust's `str::trim`, on characters. -/
def trimChars (s : List Char) : List Char :=
  ((s.dropWhile Char.isWhitespace).reverse.dropWhile Char.isWhitespace).reverse

/-- Environment read by `format` and its helpers; one field per external
observation the source makes, in source order. -/
structure FormatInput where
  /-- the value of `build.config.dry_run()` (format.rs line 138). -/
  dryRun : Bool
  /-- whether `rustfmt.toml` exists (format.rs line 146). -/
  configExists : Bool
  /-- the parsed `ignore` list of `rustfmt.toml` (format.rs lines 151-152). -/
  configIgnore : List String
  /-- whether `git --version` ran and succeeded (format.rs lines 157-165). -/
  gitAvailable : Bool
  /-- whether `git rev-parse --is-inside-work-tree` succeeded (lines 167-178). -/
  inWorkingTree : Bool
  /-- the paths of the `??` entries of `git status --porcelain` (lines 180-188). -/
  untrackedPaths : List String
  /-- whether the `git config --get-regex remote..url` query succeeded. -/
  gitConfigOk : Bool
  /-- the lines of the `git config --get-regex remote..url` output. -/
  gitRemoteLines : List String
  /-- the lines of the `git diff-index --name-only --merge-base` output. -/
  gitDiffLines : List String
  /-- rustfmt availability and `--version` outcome. -/
  versionEnv : VersionEnv
  /-- contents of the `rustfmt.stamp` file, `none` if missing/unreadable. -/
  stampContents : Option String
  /-- the `check` argument of `format`. -/
  check : Bool
  /-- the `paths` argument of `format`. -/
  paths : List String
  /-- the value of `build.src`, the root walked when no explicit paths are given. -/
  srcRoot : String
  deriving Repr, DecidableEq

/-- The function `get_modified_rs_files` (format.rs lines 81-101): requires the remote
lookup to succeed and the version cache to verify, then returns the trimmed
`git diff-index` lines whose extension is `rs`; `None` means "format
everything". -/
def get_modified_rs_files (i : FormatInput) : Option (List String) :=
  match get_rust_lang_rust_remote i.gitConfigOk i.gitRemoteLines with
  | Except.error _ => none
  | Except.ok _ =>
    if !verify_rustfmt_version i.versionEnv i.stampContents then none
    else
      some ((i.gitDiffLines.map (fun s => String.mk (trimChars s.data))).filter
        (fun f => rustExtension f.data == some "rs".data))

/-! ## The `format` entry point (format.rs lines 137-286) -/

/-- How a run of `format` ends: the `dry_run()` early return (line 139), the
missing-`rustfmt.toml` early return (lines 146-150), the
`detail_exit(1)` when `initial_rustfmt()` is `None` (lines 214-217), or
completion of the walk/dispatch phase. -/
inductive FormatResult where
  | earlyDryRun
  | earlyNoConfig
  | fatalNoRustfmt
  | completed
  deriving Repr, DecidableEq

/-- Observable effects of one run of `format`, in source order. -/
structure FormatOutput where
  result : FormatResult
  /-- whether `rustfmt.toml` was read and parsed (format.rs lines 151-152). -/
  configRead : Bool
  /-- the `!{glob}` overrides added from the config (line 155). -/
  ignorePatterns : List String
  /-- the `!/{path}` overrides added for untracked paths (line 196). -/
  untrackedExcludes : List String
  /-- whether `get_modified_rs_files` was called (line 199). -/
  fastPathAttempted : Bool
  /-- the `/{file}` allow-list added when the fast path succeeded (line 202). -/
  modifiedAllowList : Option (List String)
  /-- the roots handed to the walker (lines 221-230); `[]` if never built. -/
  walkRoots : List String
  /-- whether the parallel walk and the dispatcher thread ran (lines 240-282). -/
  ranWalk : Bool
  /-- the stamp contents written by `update_rustfmt_version`, `none` if the
  stamp file was left unchanged (lines 283-285). -/
  stampWritten : Option String
  deriving Repr, DecidableEq

/-- The control flow of `format` (format.rs lines 137-286) from the dry-run
gate to the stamp update, with the walk and dispatch phase abstracted to the
flag `ranWalk` (it is modelled separately by `dispatchRun` below). -/
def formatModel (i : FormatInput) : FormatOutput :=
  if i.dryRun then
    ⟨.earlyDryRun, false, [], [], false, none, [], false, none⟩
  else if !i.configExists then
    ⟨.earlyNoConfig, false, [], [], false, none, [], false, none⟩
  else
    let ignorePatterns := i.configIgnore.map (fun g => "!" ++ g)
    let gitActive := i.gitAvailable && i.inWorkingTree
    let untrackedExcludes :=
      if gitActive then i.untrackedPaths.map untrackedIgnorePattern else []
    let fastPath := gitActive && (!i.check && i.paths.isEmpty)
    let modified := if fastPath then get_modified_rs_files i else none
    let allowList := (modified.getD []).map (fun f => "/" ++ f)
    let modifiedOut := if modified.isSome then some allowList else none
    if !i.versionEnv.initialRustfmt then
      ⟨.fatalNoRustfmt, true, ignorePatterns, untrackedExcludes, fastPath,
        modifiedOut, [], false, none⟩
    else
      let roots := if i.paths.isEmpty then [i.srcRoot] else i.paths
      let stamp := if i.check then none else update_rustfmt_version i.versionEnv
      ⟨.completed, true, ignorePatterns, untrackedExcludes, fastPath,
        modifiedOut, roots, true, stamp⟩

/-! ## The dispatcher loop (format.rs lines 235-267)

The spawned thread owns a `VecDeque` of completion closures (`children`).
Each loop iteration receives one path by a blocking `recv`, drains up to 7
already-available paths by `try_iter().take(7)`, spawns one child over the
batch, polls the deque back-to-front removing the first completed child by
`swap_remove_back`, and — if the deque has reached `max_processes` — blocks
on the front child and removes it.  We model children by their spawn index
(`0, 1, 2, ...`), the deque as a list with the front first, and each
iteration's `try_wait` observations by an oracle `done : Nat → Bool` telling
which spawn indices have already exited at poll time. -/

/-- One iteration's worth of channel and process activity: `first` is the
path obtained by the blocking `rx.recv()`, `extras` the paths that
`rx.try_iter()` would yield at that moment (the source takes at most 7 of
them), and `done` the `try_wait` oracle for the poll phase. -/
structure RecvEvent where
  first : String
  extras : List String
  done : Nat → Bool

/-- Embedding of `VecDeque::swap_remove_back(i)` on a front-first list: the element at
`i` is replaced by the back element and the back is popped. -/
def swapRemoveBack (l : List Nat) (i : Nat) : List Nat :=
  (l.set i (l.getLast?.getD 0)).dropLast

/-- The poll loop `for i in (0..children.len()).rev()` (format.rs lines
250-255): the first index, scanning back to front, whose child `try_wait`s
as completed; `none` when no outstanding child has completed. -/
def pollIndex (done : Nat → Bool) (l : List Nat) : Option Nat :=
  (List.range l.length).reverse.find? (fun i => done (l.getD i 0))

/-- The poll phase: `swap_remove_back` the first completed child found by
the back-to-front scan (the source `break`s after one removal). -/
def pollStep (done : Nat → Bool) (l : List Nat) : List Nat :=
  match pollIndex done l with
  | some i => swapRemoveBack l i
  | none => l

/-- Everything observable about one iteration of the dispatcher loop. -/
structure IterObs where
  /-- the paths handed to this iteration's spawned child. -/
  batch : List String
  /-- pool size right after `children.push_back(child)`. -/
  lenAfterPush : Nat
  /-- pool size right after the non-blocking poll phase. -/
  lenAfterPoll : Nat
  /-- when the pool had reached `max_processes`: the spawn index the
  dispatcher blocked on (`children.pop_front()`) paired with the pool's
  content (front first) at that moment. -/
  forcedEvict : Option (Nat × List Nat)
  /-- pool size at the end of the iteration. -/
  lenAfterIter : Nat
  deriving Repr, DecidableEq

/-- One iteration of `while let Ok(path) = rx.recv()` (format.rs lines
242-261).  State: the deque of outstanding spawn indices (front first) and
the next spawn index. -/
def dispatchIter (maxProcesses : Nat) (st : List Nat × Nat) (ev : RecvEvent) :
    (List Nat × Nat) × IterObs :=
  let children := st.1
  let next := st.2
  let batch := ev.extras.take 7 ++ [ev.first]
  let pushed := children ++ [next]
  let polled := pollStep ev.done pushed
  if maxProcesses ≤ polled.length then
    ((polled.drop 1, next + 1),
      ⟨batch, pushed.length, polled.length, some (polled.headD 0, polled),
        polled.length - 1⟩)
  else
    ((polled, next + 1),
      ⟨batch, pushed.length, polled.length, none, polled.length⟩)

/-- The dispatcher loop over a whole run's receive events. -/
def dispatchGo (maxProcesses : Nat) (st : List Nat × Nat) :
    List RecvEvent → (List Nat × Nat) × List IterObs
  | [] => (st, [])
  | ev :: evs =>
    let step := dispatchIter maxProcesses st ev
    let rest := dispatchGo maxProcesses step.1 evs
    (rest.1, step.2 :: rest.2)

/-- A full run of the dispatcher thread from the empty pool: the final state
(whose pool the `for mut child in children` drain then awaits one by one,
shrinking it monotonically) and the per-iteration observations. -/
def dispatchRun (maxProcesses : Nat) (evs : List RecvEvent) :
    (List Nat × Nat) × List IterObs :=
  dispatchGo maxProcesses ([], 0) evs

/-! ## General helper lemmas -/

theorem string_data_append (s t : String) : (s ++ t).data = s.data ++ t.data := by
  obtain ⟨a⟩ := s; obtain ⟨b⟩ := t; rfl

theorem string_mk_data_iff (a b : List Char) :
    (String.mk a = String.mk b) ↔ a = b :=
  ⟨fun h => congrArg String.data h, fun h => congrArg String.mk h⟩

/-! ## C7: untracked-path excludes are anchored at the repository root -/

/-- C7: the exclude override added for an untracked path `p` (format.rs line
196, `format!("!/{}", untracked_path)`) excludes exactly the root-relative
path `p` and no other path: an untracked `foo.rs` at the repository root
excludes only the root-level `foo.rs` and never a nested path such as
`pkg/foo.rs`. -/
theorem untracked_exclude_anchored (p q : String) :
    overrideExcludes (untrackedIgnorePattern p) q = true ↔ q = p := by
  obtain ⟨pd⟩ := p
  obtain ⟨qd⟩ := q
  have h : untrackedIgnorePattern ⟨pd⟩ = ⟨'!' :: '/' :: pd⟩ := rfl
  rw [h]
  show (decide (qd = pd) = true) ↔ _
  rw [decide_eq_true_iff]
  exact (string_mk_data_iff qd pd).symm

/-! ## C5: a failed child is fatal for the whole program -/

/-- C5: for every spawned formatter child whose exit status is non-success,
invoking its completion closure — blocking, or non-blocking once the child
has exited — prints the captured command line of the failing invocation and
terminates the entire program with exit code 1 (`detail_exit(1)`), whatever
the child's actual non-zero exit code was (format.rs lines 26-44). -/
theorem failed_child_fatal (cmdDebug : String) (block : Bool) (c : SpawnedChild)
    (hfail : c.exitCode ≠ 0) (hobs : block = true ∨ c.finished = true) :
    awaitChild cmdDebug block c = .fatal cmdDebug 1 := by
  unfold awaitChild
  rcases hobs with h | h <;> simp [h, hfail]

/-- Witness for `failed_child_fatal`: a child that exited with status 2 and
is awaited non-blockingly (the spec's end-to-end scenario C) makes the whole
program exit with code 1 and print the invocation's command line. -/
theorem failed_child_fatal_witness :
    ((2 : Nat) ≠ 0 ∧ (false = true ∨ true = true)) ∧
      awaitChild "rustfmt --check a.rs" false ⟨true, 2⟩ =
        .fatal "rustfmt --check a.rs" 1 :=
  ⟨⟨by decide, Or.inr rfl⟩,
    failed_child_fatal "rustfmt --check a.rs" false ⟨true, 2⟩ (by decide)
      (Or.inr rfl)⟩

/-! ## C6: cache validity is exact version equality -/

/-- C6: `verify_rustfmt_version` returns `true` if and only if the freshly
queried formatter version string was obtained and byte-for-byte equals the
persisted stamp contents; every other condition — rustfmt unavailable, the
`--version` query failing to run or exiting non-success, the stamp file
missing/unreadable or holding a different string — yields `false` (the
function is total: no condition raises an error). -/
theorem verify_rustfmt_version_iff (env : VersionEnv) (stamp : Option String) :
    verify_rustfmt_version env stamp = true ↔
      (get_rustfmt_version env).isSome ∧ stamp = get_rustfmt_version env := by
  unfold verify_rustfmt_version
  cases hv : get_rustfmt_version env with
  | none => simp
  | some v =>
    unfold program_out_of_date
    cases stamp with
    | none => simp
    | some s => simp [eq_comm]

/-! ## C10: the dry-run gate makes `format` a no-op -/

/-- C10: when the build configuration is in dry-run mode, `format` returns
at its first statement (format.rs lines 138-140): the config file is not
read, no override is built, no fast path is attempted, no root is walked, no
child is spawned, and the stamp file is not written. -/
theorem dry_run_noop (i : FormatInput) (h : i.dryRun = true) :
    formatModel i = ⟨.earlyDryRun, false, [], [], false, none, [], false, none⟩ := by
  unfold formatModel
  rw [h]
  simp

/-- A dry-run input whose every other field would, were `dryRun` false, lead
to a full completed run with a stamp update. -/
def dryRunInput : FormatInput :=
  { dryRun := true, configExists := true, configIgnore := ["build"],
    gitAvailable := true, inWorkingTree := true, untrackedPaths := ["s.rs"],
    gitConfigOk := true,
    gitRemoteLines := ["remote.upstream.url https://github.com/rust-lang/rust"],
    gitDiffLines := ["src/lib.rs"],
    versionEnv := ⟨true, some (true, "rustfmt 1.5.1")⟩,
    stampContents := some "rustfmt 1.5.1", check := false, paths := [],
    srcRoot := "/rust" }

/-- Witness for `dry_run_noop` at `dryRunInput`. -/
theorem dry_run_noop_witness :
    dryRunInput.dryRun = true ∧
      formatModel dryRunInput =
        ⟨.earlyDryRun, false, [], [], false, none, [], false, none⟩ :=
  ⟨rfl, dry_run_noop dryRunInput rfl⟩

/-! ## C1: when is the stamp file rewritten?

The claim says the stamp is rewritten only in non-dry, non-check runs *with
no explicit paths*.  The source (format.rs lines 283-285) guards the update
with `if !check` only: a completed run over explicit paths still rewrites
the stamp. -/

/-- A non-dry, non-check run over one explicit path, with rustfmt available:
it completes and rewrites the stamp even though `paths` is non-empty. -/
def explicitPathsInput : FormatInput :=
  { dryRun := false, configExists := true, configIgnore := [],
    gitAvailable := false, inWorkingTree := false, untrackedPaths := [],
    gitConfigOk := false, gitRemoteLines := [], gitDiffLines := [],
    versionEnv := ⟨true, some (true, "rustfmt 1.5.1")⟩,
    stampContents := none, check := false,
    paths := ["library/alloc/src/lib.rs"], srcRoot := "/rust" }

/-- Counterexample to C1: a completed, non-dry, non-check run that *was*
given explicit paths nevertheless rewrites the stamp file (format.rs line
283 tests only `!check`), contradicting the claim that the stamp is
rewritten only when no explicit paths were given. -/
theorem stamp_written_despite_explicit_paths :
    (formatModel explicitPathsInput).result = .completed ∧
      explicitPathsInput.paths ≠ [] ∧
      (formatModel explicitPathsInput).stampWritten = some "rustfmt 1.5.1" := by
  refine ⟨rfl, ?_, rfl⟩
  decide

/-- C1 (amended): for every run of `format` that completes, the stamp file
is rewritten if and only if the run was not check-only and the rustfmt
version query succeeded; dry runs and aborted runs never write it, and
explicit paths do *not* prevent the rewrite. -/
theorem stamp_update_iff_not_check (i : FormatInput)
    (hc : (formatModel i).result = .completed) :
    (formatModel i).stampWritten.isSome ↔
      i.check = false ∧ (get_rustfmt_version i.versionEnv).isSome := by
  cases hd : i.dryRun with
  | true => simp [formatModel, hd] at hc
  | false =>
    cases hcfg : i.configExists with
    | false => simp [formatModel, hd, hcfg] at hc
    | true =>
      cases hr : i.versionEnv.initialRustfmt with
      | false => simp [formatModel, hd, hcfg, hr] at hc
      | true =>
        cases hch : i.check with
        | true => simp [formatModel, hd, hcfg, hr, hch]
        | false =>
          cases hv : get_rustfmt_version i.versionEnv with
          | none =>
            simp [formatModel, hd, hcfg, hr, hch, update_rustfmt_version, hv]
          | some v =>
            simp [formatModel, hd, hcfg, hr, hch, update_rustfmt_version, hv]

/-- Witness for `stamp_update_iff_not_check` at `explicitPathsInput`. -/
theorem stamp_update_iff_not_check_witness :
    (formatModel explicitPathsInput).result = .completed ∧
      ((formatModel explicitPathsInput).stampWritten.isSome ↔
        explicitPathsInput.check = false ∧
          (get_rustfmt_version explicitPathsInput.versionEnv).isSome) :=
  ⟨rfl, stamp_update_iff_not_check explicitPathsInput rfl⟩

/-! ## C8: fast-path gating and silent fallback -/

theorem get_modified_none_of_remote_error (i : FormatInput)
    (h : ∃ e, get_rust_lang_rust_remote i.gitConfigOk i.gitRemoteLines =
      Except.error e) :
    get_modified_rs_files i = none := by
  obtain ⟨e, he⟩ := h
  unfold get_modified_rs_files
  rw [he]

theorem get_modified_none_of_stale (i : FormatInput)
    (h : verify_rustfmt_version i.versionEnv i.stampContents = false) :
    get_modified_rs_files i = none := by
  unfold get_modified_rs_files
  cases get_rust_lang_rust_remote i.gitConfigOk i.gitRemoteLines with
  | error e => rfl
  | ok r => simp [h]

/-- C8: (1) the modified-files fast path (`get_modified_rs_files`) is
attempted exactly in non-dry runs with an existing config that are inside a
git working tree with git available, in fix mode (not check-only), with no
explicit paths (format.rs line 198); (2) whenever any fast-path
precondition fails — git missing, not in a working tree, no rust-lang
remote found, or a stale/unverifiable version cache — a run that reaches
the walk falls back to full-tree discovery (walk root = `build.src`, no
modified-file allow-list) and still completes: the failure is not an error.
-/
theorem fast_path_gating_and_silent_fallback :
    (∀ j : FormatInput,
        (formatModel j).fastPathAttempted = true ↔
          j.dryRun = false ∧ j.configExists = true ∧ j.gitAvailable = true ∧
            j.inWorkingTree = true ∧ j.check = false ∧ j.paths = []) ∧
    (∀ i : FormatInput,
        i.dryRun = false → i.configExists = true →
        i.versionEnv.initialRustfmt = true → i.paths = [] →
        (i.gitAvailable = false ∨ i.inWorkingTree = false ∨
          (∃ e, get_rust_lang_rust_remote i.gitConfigOk i.gitRemoteLines =
            Except.error e) ∨
          verify_rustfmt_version i.versionEnv i.stampContents = false) →
        (formatModel i).result = .completed ∧
          (formatModel i).modifiedAllowList = none ∧
          (formatModel i).walkRoots = [i.srcRoot] ∧
          (formatModel i).ranWalk = true) := by
  constructor
  · intro j
    unfold formatModel
    cases hd : j.dryRun with
    | true => simp [hd]
    | false =>
      cases hcfg : j.configExists with
      | false => simp [hcfg]
      | true =>
        cases hr : j.versionEnv.initialRustfmt with
        | false =>
          simp [hcfg, List.isEmpty_iff, and_assoc]
        | true =>
          simp [hcfg, List.isEmpty_iff, and_assoc]
  · intro i hdry hcfg hfmt hpaths hfail
    have hmod : (i.gitAvailable && i.inWorkingTree) = false ∨
        get_modified_rs_files i = none := by
      rcases hfail with h | h | h | h
      · exact Or.inl (by rw [h]; rfl)
      · exact Or.inl (by rw [h, Bool.and_false])
      · exact Or.inr (get_modified_none_of_remote_error i h)
      · exact Or.inr (get_modified_none_of_stale i h)
    unfold formatModel
    rw [hdry, hcfg, hfmt, hpaths]
    rcases hmod with h | h
    · simp [h]
    · cases hga : (i.gitAvailable && i.inWorkingTree) with
      | false => simp [hga]
      | true => simp [hga, h]

/-- An input for the fallback part of C8: git is available and we are in a
working tree, but no rust-lang remote is configured, so the fast path's
precondition fails and the run falls back to a full-tree walk. -/
def noRemoteInput : FormatInput :=
  { dryRun := false, configExists := true, configIgnore := [],
    gitAvailable := true, inWorkingTree := true, untrackedPaths := [],
    gitConfigOk := true,
    gitRemoteLines := ["remote.origin.url https://github.com/octocat/fork"],
    gitDiffLines := ["src/lib.rs"],
    versionEnv := ⟨true, some (true, "rustfmt 1.5.1")⟩,
    stampContents := some "rustfmt 1.5.1", check := false, paths := [],
    srcRoot := "/rust" }

/-- Witness for `fast_path_gating_and_silent_fallback`: at `noRemoteInput`
(no rust-lang remote configured) every hypothesis of the fallback part is
discharged concretely, and the run completes as a full-tree walk. -/
theorem fast_path_gating_and_silent_fallback_witness :
    (noRemoteInput.dryRun = false ∧ noRemoteInput.configExists = true ∧
      noRemoteInput.versionEnv.initialRustfmt = true ∧
      noRemoteInput.paths = [] ∧
      (∃ e, get_rust_lang_rust_remote noRemoteInput.gitConfigOk
        noRemoteInput.gitRemoteLines = Except.error e)) ∧
    ((formatModel noRemoteInput).result = .completed ∧
      (formatModel noRemoteInput).modifiedAllowList = none ∧
      (formatModel noRemoteInput).walkRoots = [noRemoteInput.srcRoot] ∧
      (formatModel noRemoteInput).ranWalk = true) :=
  ⟨⟨rfl, rfl, rfl, rfl, ⟨"rust-lang/rust remote not found", rfl⟩⟩,
    fast_path_gating_and_silent_fallback.2 noRemoteInput rfl rfl rfl rfl
      (Or.inr (Or.inr (Or.inl ⟨"rust-lang/rust remote not found", rfl⟩)))⟩

/-! ## Dispatcher lemmas -/

theorem swapRemoveBack_length (l : List Nat) (i : Nat) :
    (swapRemoveBack l i).length = l.length - 1 := by
  unfold swapRemoveBack
  rw [List.length_dropLast, List.length_set]

theorem pollStep_length_le (done : Nat → Bool) (l : List Nat) :
    (pollStep done l).length ≤ l.length := by
  unfold pollStep
  cases pollIndex done l with
  | none => exact Nat.le_refl _
  | some i => rw [swapRemoveBack_length]; exact Nat.sub_le _ _

/-- Per-iteration bounds: if the pool held at most `maxP - 1` children at
the top of the loop, then it holds at most `maxP` right after the push, at
most `maxP` after the poll, and again at most `maxP - 1` at the bottom. -/
theorem dispatchIter_bounds (maxP : Nat) (st : List Nat × Nat) (ev : RecvEvent)
    (h : st.1.length + 1 ≤ maxP) :
    (dispatchIter maxP st ev).1.1.length + 1 ≤ maxP ∧
    (dispatchIter maxP st ev).2.lenAfterPush ≤ maxP ∧
    (dispatchIter maxP st ev).2.lenAfterPoll ≤ maxP ∧
    (dispatchIter maxP st ev).2.lenAfterIter ≤ maxP := by
  have hpush : (st.1 ++ [st.2]).length = st.1.length + 1 := by
    rw [List.length_append]; rfl
  have hpoll : (pollStep ev.done (st.1 ++ [st.2])).length ≤ maxP := by
    calc (pollStep ev.done (st.1 ++ [st.2])).length
        ≤ (st.1 ++ [st.2]).length := pollStep_length_le _ _
      _ ≤ maxP := by rw [hpush]; exact h
  simp only [dispatchIter]
  split
  next hcap =>
    refine ⟨?_, ?_, hpoll, ?_⟩
    · simp only [List.length_drop]
      have h1 : 1 ≤ (pollStep ev.done (st.1 ++ [st.2])).length :=
        Nat.le_trans (Nat.le_trans (Nat.le_add_left 1 st.1.length) h) hcap
      omega
    · rw [hpush]; exact h
    · exact Nat.le_trans (Nat.sub_le _ _) hpoll
  next hcap =>
    refine ⟨?_, ?_, hpoll, hpoll⟩
    · exact Nat.succ_le_of_lt (Nat.lt_of_not_le hcap)
    · rw [hpush]; exact h

/-- Lifts a property of every iteration's observation to whole runs. -/
theorem dispatchGo_obs (maxP : Nat) (P : IterObs → Prop)
    (hstep : ∀ st ev, P (dispatchIter maxP st ev).2) :
    ∀ evs st, ∀ obs ∈ (dispatchGo maxP st evs).2, P obs := by
  intro evs
  induction evs with
  | nil => intro st obs hobs; simp [dispatchGo] at hobs
  | cons ev evs ih =>
    intro st obs hobs
    simp only [dispatchGo, List.mem_cons] at hobs
    rcases hobs with rfl | hobs
    · exact hstep st ev
    · exact ih _ obs hobs

theorem dispatchGo_invariant (maxP : Nat) (evs : List RecvEvent) :
    ∀ st : List Nat × Nat, st.1.length + 1 ≤ maxP →
      (dispatchGo maxP st evs).1.1.length + 1 ≤ maxP ∧
      ∀ obs ∈ (dispatchGo maxP st evs).2,
        obs.lenAfterPush ≤ maxP ∧ obs.lenAfterPoll ≤ maxP ∧
        obs.lenAfterIter ≤ maxP := by
  induction evs with
  | nil =>
    intro st h
    exact ⟨h, by intro obs hobs; simp [dispatchGo] at hobs⟩
  | cons ev evs ih =>
    intro st h
    have hb := dispatchIter_bounds maxP st ev h
    have hrest := ih (dispatchIter maxP st ev).1 hb.1
    refine ⟨hrest.1, ?_⟩
    intro obs hobs
    simp only [dispatchGo, List.mem_cons] at hobs
    rcases hobs with rfl | hobs
    · exact hb.2
    · exact hrest.2 obs hobs

/-! ## C2: the pool never exceeds `max_processes` -/

/-- C2: with `max_processes = 2 * build.jobs()` (format.rs line 237) and at
least one job, the number of outstanding children never exceeds
`max_processes` at any observation point of the dispatcher loop — right
after the `push_back`, after the non-blocking poll, and at the end of each
iteration — nor at the start of the final drain (whose pool only shrinks as
each remaining child is awaited). -/
theorem pool_size_invariant (jobs : Nat) (hj : 1 ≤ jobs) (evs : List RecvEvent) :
    (dispatchRun (2 * jobs) evs).1.1.length ≤ 2 * jobs ∧
    ∀ obs ∈ (dispatchRun (2 * jobs) evs).2,
      obs.lenAfterPush ≤ 2 * jobs ∧ obs.lenAfterPoll ≤ 2 * jobs ∧
      obs.lenAfterIter ≤ 2 * jobs := by
  have h0 : (([], 0) : List Nat × Nat).1.length + 1 ≤ 2 * jobs := by
    simp only [List.length_nil]
    omega
  have h := dispatchGo_invariant (2 * jobs) evs ([], 0) h0
  exact ⟨Nat.le_of_succ_le h.1, h.2⟩

/-- Witness for `pool_size_invariant` at one job and two receive events. -/
theorem pool_size_invariant_witness :
    1 ≤ 1 ∧
      ((dispatchRun (2 * 1)
          [⟨"a", ["b"], fun _ => false⟩, ⟨"c", [], fun _ => false⟩]).1.1.length
        ≤ 2 * 1 ∧
      ∀ obs ∈ (dispatchRun (2 * 1)
          [⟨"a", ["b"], fun _ => false⟩, ⟨"c", [], fun _ => false⟩]).2,
        obs.lenAfterPush ≤ 2 * 1 ∧ obs.lenAfterPoll ≤ 2 * 1 ∧
        obs.lenAfterIter ≤ 2 * 1) :=
  ⟨Nat.le_refl 1, pool_size_invariant 1 (Nat.le_refl 1) _⟩

/-! ## C3: every batch holds between 1 and 8 paths -/

theorem dispatchIter_batch (maxP : Nat) (st : List Nat × Nat) (ev : RecvEvent) :
    (dispatchIter maxP st ev).2.batch = ev.extras.take 7 ++ [ev.first] := by
  simp only [dispatchIter]
  split <;> rfl

/-- C3: every batch handed to a spawned child consists of the one path
obtained by the blocking `rx.recv()` plus at most 7 more drained without
blocking (`rx.try_iter().take(7)`, format.rs line 244), hence contains
between 1 and 8 paths inclusive. -/
theorem batch_size_invariant (maxP : Nat) (evs : List RecvEvent) :
    ∀ obs ∈ (dispatchRun maxP evs).2,
      1 ≤ obs.batch.length ∧ obs.batch.length ≤ 8 := by
  refine dispatchGo_obs maxP _ ?_ evs ([], 0)
  intro st ev
  rw [dispatchIter_batch, List.length_append, List.length_take]
  constructor
  · simp
  · have : min 7 ev.extras.length ≤ 7 := Nat.min_le_left _ _
    simp only [List.length_cons, List.length_nil]
    omega

/-- Witness for `batch_size_invariant`: the dispatcher that received `"a"`
by the blocking receive and drained `"b"` spawns the 2-path batch
`["b", "a"]`, which lies within the 1..8 bound. -/
theorem batch_size_invariant_witness :
    (⟨["b", "a"], 1, 1, none, 1⟩ : IterObs) ∈
        (dispatchRun 8 [⟨"a", ["b"], fun _ => false⟩]).2 ∧
      1 ≤ (["b", "a"] : List String).length ∧
        (["b", "a"] : List String).length ≤ 8 :=
  ⟨by decide,
    batch_size_invariant 8 [⟨"a", ["b"], fun _ => false⟩]
      ⟨["b", "a"], 1, 1, none, 1⟩ (by decide)⟩

/-! ## C4: the capacity-forced blocking wait

The claim says the capacity-forced blocking wait always lands on the pool's
*oldest* entry in spawn order.  The source blocks on the `VecDeque`'s front
(`children.pop_front()`, format.rs line 259), but the non-blocking poll
removes completed children with `swap_remove_back`, which moves the *back*
(most recently spawned) child into the vacated slot; once that happens the
deque's front is no longer the oldest outstanding child. -/

theorem dispatchIter_evict (maxP : Nat) (hm : 1 ≤ maxP) (st : List Nat × Nat)
    (ev : RecvEvent) :
    ((dispatchIter maxP st ev).2.forcedEvict.isSome ↔
      maxP ≤ (dispatchIter maxP st ev).2.lenAfterPoll) ∧
    ∀ cid pool, (dispatchIter maxP st ev).2.forcedEvict = some (cid, pool) →
      pool.head? = some cid ∧
      pool.length = (dispatchIter maxP st ev).2.lenAfterPoll ∧
      (dispatchIter maxP st ev).2.lenAfterIter + 1 =
        (dispatchIter maxP st ev).2.lenAfterPoll := by
  simp only [dispatchIter]
  split
  next hcap =>
    refine ⟨by simpa using hcap, ?_⟩
    intro cid pool hev
    simp only [Option.some.injEq, Prod.mk.injEq] at hev
    obtain ⟨rfl, rfl⟩ := hev
    have hne : pollStep ev.done (st.1 ++ [st.2]) ≠ [] := by
      intro hnil
      rw [hnil] at hcap
      simp at hcap
      omega
    refine ⟨?_, rfl, ?_⟩
    · cases hl : pollStep ev.done (st.1 ++ [st.2]) with
      | nil => exact absurd hl hne
      | cons a l => simp [hl]
    · have h1 : 1 ≤ (pollStep ev.done (st.1 ++ [st.2])).length := by
        cases hl : pollStep ev.done (st.1 ++ [st.2]) with
        | nil => exact absurd hl hne
        | cons a l => simp
      simp only []
      omega
  next hcap =>
    refine ⟨by simpa using hcap, ?_⟩
    intro cid pool hev
    simp at hev

/-- C4 (amended): whenever the pool has reached `max_processes`
(= 2 × `build.jobs()`) after the insertion and the non-blocking poll, and
only then, the dispatcher performs a blocking wait on the pool's *front*
(deque-first) entry and removes it, bringing the pool back under the cap.
Because the poll phase removes completed children by `swap_remove_back`,
the deque's front is not in general the oldest outstanding child by spawn
order (see `forced_evict_not_oldest`): eviction is FIFO over the deque's
current order, not over spawn order. -/
theorem forced_evict_is_pool_front (jobs : Nat) (hj : 1 ≤ jobs)
    (evs : List RecvEvent) :
    ∀ obs ∈ (dispatchRun (2 * jobs) evs).2,
      (obs.forcedEvict.isSome ↔ 2 * jobs ≤ obs.lenAfterPoll) ∧
      ∀ cid pool, obs.forcedEvict = some (cid, pool) →
        pool.head? = some cid ∧ pool.length = obs.lenAfterPoll ∧
        obs.lenAfterIter + 1 = obs.lenAfterPoll := by
  refine dispatchGo_obs (2 * jobs) _ ?_ evs ([], 0)
  intro st ev
  exact dispatchIter_evict (2 * jobs) (by omega) st ev

/-- Witness for `forced_evict_is_pool_front`: with one job
(`max_processes = 2`) and two quiet receive events, the second iteration
fills the pool to the cap and blocks on the front child, spawn index 0. -/
theorem forced_evict_is_pool_front_witness :
    (1 ≤ 1 ∧
      (⟨["b"], 2, 2, some (0, [0, 1]), 1⟩ : IterObs) ∈
        (dispatchRun (2 * 1)
          [⟨"a", [], fun _ => false⟩, ⟨"b", [], fun _ => false⟩]).2) ∧
    (((⟨["b"], 2, 2, some (0, [0, 1]), 1⟩ : IterObs).forcedEvict.isSome ↔
        2 * 1 ≤ (⟨["b"], 2, 2, some (0, [0, 1]), 1⟩ : IterObs).lenAfterPoll) ∧
      ∀ cid pool,
        (⟨["b"], 2, 2, some (0, [0, 1]), 1⟩ : IterObs).forcedEvict =
          some (cid, pool) →
        pool.head? = some cid ∧
        pool.length = (⟨["b"], 2, 2, some (0, [0, 1]), 1⟩ : IterObs).lenAfterPoll ∧
        (⟨["b"], 2, 2, some (0, [0, 1]), 1⟩ : IterObs).lenAfterIter + 1 =
          (⟨["b"], 2, 2, some (0, [0, 1]), 1⟩ : IterObs).lenAfterPoll) :=
  ⟨⟨Nat.le_refl 1, by decide⟩,
    forced_evict_is_pool_front 1 (Nat.le_refl 1)
      [⟨"a", [], fun _ => false⟩, ⟨"b", [], fun _ => false⟩]
      ⟨["b"], 2, 2, some (0, [0, 1]), 1⟩ (by decide)⟩

/-- A run with two jobs (`max_processes = 4`): five children are spawned;
at the third iteration's poll only child 0 has completed, so
`swap_remove_back(0)` moves child 2 (the back) to the deque's front; at the
fifth iteration the pool reaches the cap of 4. -/
def perturbedRun : List RecvEvent :=
  [⟨"p0", [], fun _ => false⟩, ⟨"p1", [], fun _ => false⟩,
    ⟨"p2", [], fun i => i == 0⟩, ⟨"p3", [], fun _ => false⟩,
    ⟨"p4", [], fun _ => false⟩]

/-- Counterexample to C4: at the fifth iteration of `perturbedRun` the
capacity-forced blocking wait removes child 2 while child 1 — spawned
*earlier* — is still outstanding in the pool `[2, 1, 3, 4]`: eviction under
the capacity-forced wait is not strict FIFO over spawn order. -/
theorem forced_evict_not_oldest :
    ((dispatchRun (2 * 2) perturbedRun).2.getD 4
        ⟨[], 0, 0, none, 0⟩).forcedEvict = some (2, [2, 1, 3, 4]) ∧
      1 ∈ ([2, 1, 3, 4] : List Nat) ∧ (1 : Nat) < 2 := by
  refine ⟨?_, by decide, by decide⟩
  decide

/-! ## C9: which remote does `get_rust_lang_rust_remote` pick?

The claim says the chosen remote is the first one whose *URL's*
host/organization matches the canonical rust-lang upstream.  The source
(format.rs line 124) tests `remote.contains("rust-lang")` on the *whole*
config line — remote name included — so a remote whose *name* contains
`rust-lang` is picked even when its URL points elsewhere. -/

theorem splitOnChar_ne_nil (c : Char) (l : List Char) : splitOnChar c l ≠ [] := by
  cases l with
  | nil => simp [splitOnChar]
  | cons x xs =>
    unfold splitOnChar
    cases h : splitOnChar c xs with
    | nil => simp
    | cons piece rest => by_cases hxc : x = c <;> simp [hxc]

theorem splitOnChar_cons_self (c : Char) (ys : List Char) :
    splitOnChar c (c :: ys) = [] :: splitOnChar c ys := by
  cases h : splitOnChar c ys with
  | nil => exact absurd h (splitOnChar_ne_nil c ys)
  | cons piece rest =>
    conv_lhs => unfold splitOnChar
    rw [h]
    simp

theorem splitOnChar_append (c : Char) (xs ys : List Char) (h : c ∉ xs) :
    splitOnChar c (xs ++ c :: ys) = xs :: splitOnChar c ys := by
  induction xs with
  | nil => simpa using splitOnChar_cons_self c ys
  | cons x xs ih =>
    have hx : x ≠ c := fun he => h (he ▸ List.mem_cons_self x xs)
    have hxs : c ∉ xs := fun hm => h (List.mem_cons_of_mem x hm)
    simp only [List.cons_append]
    conv_lhs => unfold splitOnChar
    rw [ih hxs]
    simp [hx]

theorem find_first_of_match {α : Type} (p : α → Bool) (pre : List α) (x : α)
    (post : List α) (hpre : ∀ l ∈ pre, p l = false) (hx : p x = true) :
    (pre ++ x :: post).find? p = some x := by
  induction pre with
  | nil => simp [List.find?_cons_of_pos, hx]
  | cons a as ih =>
    have ha : p a = false := hpre a (List.mem_cons_self a as)
    have has : ∀ l ∈ as, p l = false :=
      fun l hl => hpre l (List.mem_cons_of_mem a hl)
    rw [List.cons_append, List.find?_cons_of_neg _ (by simp [ha]), ih has]

theorem find_none_of_all_false {α : Type} (p : α → Bool) (l : List α)
    (h : ∀ x ∈ l, p x = false) : l.find? p = none :=
  List.find?_eq_none.mpr (fun x hx => by simp [h x hx])

/-- Counterexample input for C9: the first configured remote is a fork whose
*name* contains `rust-lang` but whose URL does not; the second remote is the
canonical rust-lang/rust upstream. -/
def fanRemoteLines : List String :=
  ["remote.rust-lang-fan.url https://github.com/octocat/hello",
    "remote.upstream.url https://github.com/rust-lang/rust"]

/-- Counterexample to C9: `get_rust_lang_rust_remote` returns
`rust-lang-fan`, whose URL (`https://github.com/octocat/hello`) does not
contain `rust-lang` at all — the substring test matched the remote *name* —
while the first remote whose URL matches the canonical upstream identity is
`upstream`. -/
theorem remote_matched_by_name_not_url :
    get_rust_lang_rust_remote true fanRemoteLines = Except.ok "rust-lang-fan" ∧
      specFirstUpstreamRemote fanRemoteLines = some "upstream" ∧
      containsChars "rust-lang".data
        (urlField
          "remote.rust-lang-fan.url https://github.com/octocat/hello").data =
        false :=
  ⟨rfl, rfl, by decide⟩

/-- C9 (amended): `get_rust_lang_rust_remote` returns the second
`.`-separated field of the first `git config` output line that contains the
substring `rust-lang` *anywhere in the line* (remote name or URL; first
match wins); when no line contains that substring it returns the
recoverable error `rust-lang/rust remote not found`, not a fatal failure.
-/
theorem remote_first_line_containing_rust_lang :
    (∀ stdout : List String,
        (∀ l ∈ stdout, containsChars "rust-lang".data l.data = false) →
        get_rust_lang_rust_remote true stdout =
          Except.error "rust-lang/rust remote not found") ∧
    (∀ (pre post : List String) (rname url : String),
        (∀ l ∈ pre, containsChars "rust-lang".data l.data = false) →
        containsChars "rust-lang".data
          ("remote." ++ rname ++ ".url " ++ url).data = true →
        '.' ∉ rname.data →
        get_rust_lang_rust_remote true
          (pre ++ ("remote." ++ rname ++ ".url " ++ url) :: post) =
          Except.ok rname) := by
  constructor
  · intro stdout h
    unfold get_rust_lang_rust_remote
    rw [find_none_of_all_false _ _ h]
    rfl
  · intro pre post rname url hpre hx hname
    unfold get_rust_lang_rust_remote
    rw [find_first_of_match _ pre _ post hpre hx]
    have hdata : ("remote." ++ rname ++ ".url " ++ url).data =
        "remote".data ++ '.' :: (rname.data ++ '.' :: ("url ".data ++ url.data)) := by
      simp [string_data_append, List.append_assoc]
    have hmk : String.mk rname.data = rname := by obtain ⟨d⟩ := rname; rfl
    show (match (splitOnChar '.'
          ("remote." ++ rname ++ ".url " ++ url).data).get? 1 with
      | none => Except.error "remote name not found"
      | some found => Except.ok (String.mk found)) = Except.ok rname
    rw [hdata, splitOnChar_append '.' "remote".data _ (by decide),
      splitOnChar_append '.' rname.data _ hname]
    simp [hmk]

/-- Witness for `remote_first_line_containing_rust_lang`: one preceding
non-matching remote, then the canonical upstream line; the function returns
`upstream`. -/
theorem remote_first_line_containing_rust_lang_witness :
    ((∀ l ∈ (["remote.origin.url https://github.com/octocat/fork"] :
          List String),
        containsChars "rust-lang".data l.data = false) ∧
      containsChars "rust-lang".data
        ("remote." ++ "upstream" ++ ".url " ++
          "https://github.com/rust-lang/rust").data = true ∧
      '.' ∉ "upstream".data) ∧
    get_rust_lang_rust_remote true
      (["remote.origin.url https://github.com/octocat/fork"] ++
        ("remote." ++ "upstream" ++ ".url " ++
          "https://github.com/rust-lang/rust") :: []) = Except.ok "upstream" :=
  ⟨⟨by decide, by decide, by decide⟩,
    remote_first_line_containing_rust_lang.2
      ["remote.origin.url https://github.com/octocat/fork"] []
      "upstream" "https://github.com/rust-lang/rust"
      (by decide) (by decide) (by decide)⟩

end FormatRs
